import Mathlib

/-!
Verification of the mutation-score report-normalization pipeline of the
`analyzer` package (files `analyzer/tools.py` and `analyzer/utility.py`).

The four report parsers (`Judy._get_mutation_score`,
`Jumble._get_mutation_score`, `Major._get_mutation_score`,
`Pit._get_mutation_score`), the tool registry (`get_tool`,
`get_all_tools`) and the config reader (`read_config`) are embedded as
executable Lean functions over the parsed content of the report files.
Machine text is `List Char` / `String`; counts are `Int` (Python ints),
scores are `ℚ` (Python floats are modelled exactly as rationals, and only
ever hold results of a single division and of `round(_, 3)`, which the
relevant inputs represent exactly); fallible code returns
`Except ToolError _`, with one constructor per Python exception that the
parsing code can raise.  Character classes of the regexes (`\s`, `\w`,
`[a-zA-Z]`, `\d`) are modelled at their ASCII meaning, which is exact for
the console transcripts the code consumes.
-/

/-- The canonical score record produced by every parser:
`dict(killed=…, live=…, all=…, score=…, score_full=…)`. -/
structure Report where
  killed : Int
  live : Int
  all : Int
  score : ℚ
  score_full : ℚ
deriving DecidableEq, Repr

/-- The Python exceptions that the embedded code can raise.
`runtimeError` is the `RuntimeError` of `Jumble._get_mutation_score`
(the spec's `ExecutionFailedError`); `assertionFailed` covers the two
`assert` statements of `Judy._get_mutation_score` (the spec's
`AmbiguousTargetError`); `keyError` is the `KeyError` of
`bool_mapper[child.get("detected")]`; `attributeError` is the
`AttributeError` escaping from `error_pattern.search(text).group(1)`
when that search finds nothing. -/
inductive ToolError where
  | zeroDivision
  | runtimeError (msg : String)
  | assertionFailed (msg : String)
  | keyError
  | attributeError
deriving DecidableEq, Repr

/-- Returns `true` exactly when the computation returned a record instead of
raising. -/
def exceptIsOk {ε α : Type} : Except ε α → Bool
  | .ok _ => true
  | .error _ => false

/-- Python's banker's rounding of a rational to the nearest integer:
ties go to the even neighbour. -/
def roundHalfEven (q : ℚ) : ℤ :=
  let f := ⌊q⌋
  let r := q - (f : ℚ)
  if r < 1/2 then f
  else if 1/2 < r then f + 1
  else if 2 ∣ f then f else f + 1

/-- Model of `round(x, 3)`: round to the nearest multiple of `1/1000`
(banker's rounding on ties), as every parser applies to `score_full`. -/
def round3 (q : ℚ) : ℚ := (roundHalfEven (q * 1000) : ℚ) / 1000

/-! ## Judy (`Judy._get_mutation_score`)

The JSON report is a document `{"classes": [...]}`; each class entry is
consumed only through its `name`, `mutantsCount` and
`mutantsKilledCount` fields, so an entry is embedded as that triple. -/

/-- One element of `result_dict["classes"]`. -/
structure JudyClassEntry where
  name : String
  mutantsCount : Int
  mutantsKilledCount : Int
deriving DecidableEq, Repr

/-- Model of `Judy._get_mutation_score`: filter the class list for the target
class name; `assert len > 0`, `assert len == 1`; then
`all = mutantsCount`, `killed = mutantsKilledCount`,
`live = all - killed`, `score_full = killed / all` (a `ZeroDivisionError`
when `mutantsCount == 0`), `score = round(score_full, 3)`. -/
def judyScore (classUnderMutation : String) (entries : List JudyClassEntry) :
    Except ToolError Report :=
  match entries.filter (fun e => decide (e.name = classUnderMutation)) with
  | [] => .error (.assertionFailed (classUnderMutation ++ " not found in Judy output!"))
  | [e] =>
    if e.mutantsCount = 0 then .error .zeroDivision
    else
      .ok { killed := e.mutantsKilledCount
            live := e.mutantsCount - e.mutantsKilledCount
            all := e.mutantsCount
            score := round3 ((e.mutantsKilledCount : ℚ) / (e.mutantsCount : ℚ))
            score_full := (e.mutantsKilledCount : ℚ) / (e.mutantsCount : ℚ) }
  | _ :: _ :: _ =>
    .error (.assertionFailed (classUnderMutation ++ " appears multiple times in Judy output!"))

/-! ## Major (`Major._get_mutation_score`)

`kill.csv` is read with `header=0`, so its data rows (below the header
line) form the kill-status table, embedded as `(MutantNo, Status)`
pairs; `mutants.log` is read with `header=None` and only its index
(`MutantNo`) matters to the score, so the description table is embedded
as the list of its mutant ids.  `mutants_df.join(kill_df)` is a pandas
left join on the index: each description row is matched with every
kill-status row carrying the same id, or with a single missing status
when no kill-status row matches. -/

/-- The `Status` column of `mutants_df.join(kill_df)`, in row order:
for each description id, every matching kill row's status (pandas
duplicates the left row once per match), or `none` (`NaN`) when the id
has no kill-status row. -/
def majorStatuses : List Int → List (Int × String) → List (Option String)
  | [], _ => []
  | i :: is, kill =>
    (match kill.filter (fun p => decide (p.1 = i)) with
     | [] => [none]
     | q :: qs => (q :: qs).map (fun p => some p.2)) ++ majorStatuses is kill

/-- The status the kill table assigns to a mutant id: the first matching
row's status, if any (well-defined description of the join column when
the kill ids are distinct). -/
def killStatusOf (kill : List (Int × String)) (i : Int) : Option String :=
  (kill.find? (fun p => decide (p.1 = i))).map Prod.snd

/-- Model of `Major._get_mutation_score`: if the kill-status table is empty,
`killed=0, live=all=len(mutants_df), score=score_full=0`; otherwise join
and count `live = len(df[df["Status"] == "LIVE"])`, `all = len(df)`,
`killed = all - live`, `score_full = killed / all` (a
`ZeroDivisionError` when the join is empty), `score = round(_, 3)`. -/
def majorScore (mutants : List Int) (kill : List (Int × String)) :
    Except ToolError Report :=
  match kill with
  | [] =>
    .ok { killed := 0, live := mutants.length, all := mutants.length
          score := 0, score_full := 0 }
  | k :: ks =>
    let sts := majorStatuses mutants (k :: ks)
    let liveCount := sts.countP (fun s => decide (s = some "LIVE"))
    let allCount := sts.length
    let killedCount := allCount - liveCount
    if allCount = 0 then .error .zeroDivision
    else
      .ok { killed := killedCount, live := liveCount, all := allCount
            score := round3 ((killedCount : ℚ) / (allCount : ℚ))
            score_full := (killedCount : ℚ) / (allCount : ℚ) }

/-! ## Pit (`Pit._get_mutation_score`)

Only the `detected` attribute of each direct child of the XML root is
consumed, so the report is embedded as that list of optional attribute
values (`none` when `child.get("detected")` returns `None`). -/

/-- The counting loop over the root's children:
`bool_mapper[child.get("detected")]` raises `KeyError` unless the
attribute is literally `"true"` or `"false"`; otherwise the matching
counter is incremented. -/
def pitCounts : List (Option String) → Except ToolError (Nat × Nat)
  | [] => .ok (0, 0)
  | d :: ds =>
    if d = some "true" then
      (pitCounts ds).map (fun p => (p.1 + 1, p.2))
    else if d = some "false" then
      (pitCounts ds).map (fun p => (p.1, p.2 + 1))
    else .error .keyError

/-- Model of `Pit._get_mutation_score`: count detected / undetected children,
`all = killed + live`, `score_full = killed / all` (a
`ZeroDivisionError` when the root has no children),
`score = round(_, 3)`. -/
def pitScore (detected : List (Option String)) : Except ToolError Report :=
  match pitCounts detected with
  | .error e => .error e
  | .ok (k, l) =>
    if k + l = 0 then .error .zeroDivision
    else
      .ok { killed := k, live := l, all := (k + l : ℕ)
            score := round3 ((k : ℚ) / ((k + l : ℕ) : ℚ))
            score_full := (k : ℚ) / ((k + l : ℕ) : ℚ) }

/-! ## Registry (`get_tool`, `get_all_tools`) -/

/-- The closed set of engine kinds. -/
inductive ToolKind where
  | judy
  | jumble
  | major
  | pit
deriving DecidableEq, Repr

/-- The keys of the `valid_tools` dict, in insertion order. -/
def validToolNames : List String := ["judy", "jumble", "major", "pit"]

/-- Model of `get_tool`: map a tool name to its adapter, or raise `ValueError`
(the spec's `UnknownToolError`) whose message embeds
`list(valid_tools.keys())`. -/
def get_tool (tool_name : String) : Except String ToolKind :=
  if tool_name = "judy" then .ok .judy
  else if tool_name = "jumble" then .ok .jumble
  else if tool_name = "major" then .ok .major
  else if tool_name = "pit" then .ok .pit
  else .error ("Invalid tool provided: " ++ tool_name ++
    ". Valid tools are ['judy', 'jumble', 'major', 'pit']")

/-- Model of `get_all_tools`: `get_tool` applied to the four names
`(Judy.name, Jumble.name, Major.name, Pit.name)` in that order. -/
def get_all_tools : List (Except String ToolKind) :=
  validToolNames.map get_tool

/-! ## Config reader (`utility.read_config`)

The file is consumed through `f.readlines()`; the embedding takes the
resulting list of lines.  Python's `str.strip` removes the surrounding
whitespace (including the kept line terminator). -/

/-- ASCII whitespace, the `\s` class of the regexes and the default
class of `str.strip`. -/
def isWS (c : Char) : Bool :=
  c = ' ' || c = '\t' || c = '\n' || c = '\r' || c = '\x0b' || c = '\x0c'

/-- Model of `str.strip()`. -/
def stripChars (l : List Char) : List Char :=
  ((l.dropWhile isWS).reverse.dropWhile isWS).reverse

/-- Model of `str.strip()` on `String`. -/
def stripStr (s : String) : String := String.mk (stripChars s.toList)

/-- Model of `line.split("=", maxsplit=1)` restricted to the information the
caller uses: the parts before and after the first `'='`, or `none`
when the line holds no `'='`. -/
def splitFirstEq : List Char → Option (List Char × List Char)
  | [] => none
  | c :: cs =>
    if c = '=' then some ([], cs)
    else
      match splitFirstEq cs with
      | none => none
      | some (a, b) => some (c :: a, b)

/-- Model of `result[key] = value` on a Python dict: overwrite in place when the
key is present (keeping its position), else append. -/
def dictInsert : List (String × String) → String → String → List (String × String)
  | [], k, v => [(k, v)]
  | (k', v') :: rest, k, v =>
    if k' = k then (k', v) :: rest else (k', v') :: dictInsert rest k v

/-- One iteration of the `read_config` loop on one line. -/
def readConfigLine (acc : List (String × String)) (line : String) :
    List (String × String) :=
  let l := stripStr line
  if l = "" then acc
  else if l.toList.head? = some '#' then acc
  else
    match splitFirstEq l.toList with
    | none => acc
    | some (k, v) => dictInsert acc (stripStr (String.mk k)) (stripStr (String.mk v))

/-- Model of `utility.read_config` with the default separator `"="`, over the
lines of the file. -/
def read_config (lines : List String) : List (String × String) :=
  lines.foldl readConfigLine []

/-- The reader exactly as claim C9 words it (for refinement comparison
with `read_config`): skip blank lines and lines starting with `'#'`,
split each remaining line on the first `'='` into a key and a value,
silently skip lines without a separator, return the map of the pairs —
with no whitespace stripping anywhere. -/
def readConfigClaim (lines : List String) : List (String × String) :=
  lines.foldl
    (fun acc line =>
      if line = "" then acc
      else if line.toList.head? = some '#' then acc
      else
        match splitFirstEq line.toList with
        | none => acc
        | some (k, v) => dictInsert acc (String.mk k) (String.mk v))
    []

/-- The per-line contract of the amended claim C9: strip the line; drop
it when the stripped form is blank or starts with `'#'` or has no `'='`;
otherwise split the stripped line on the first `'='` and strip key and
value. -/
def parseLineAmended (line : String) : Option (String × String) :=
  let l := stripStr line
  if l = "" then none
  else if l.toList.head? = some '#' then none
  else
    match splitFirstEq l.toList with
    | none => none
    | some (k, v) => some (stripStr (String.mk k), stripStr (String.mk v))

/-! ## Jumble (`Jumble._get_mutation_score`)

The transcript is scanned with four regexes.  Each one is embedded as a
matcher at a fixed position plus a leftmost search; greedy `\d+`, `\s*`,
`[a-zA-Z.]+` and `[\w ]+` runs are maximal runs here, which agrees with
Python's backtracking because in every pattern the character that must
follow a run is excluded from the run's class. -/

/-- Match a literal at the head of the input, returning the rest. -/
def stripLit : List Char → List Char → Option (List Char)
  | [], l => some l
  | _ :: _, [] => none
  | p :: ps, c :: cs => if p = c then stripLit ps cs else none

/-- Match one given character at the head of the input. -/
def stripChar (c : Char) : List Char → Option (List Char)
  | [] => none
  | d :: ds => if d = c then some ds else none

/-- Match `\d+` (one or more ASCII digits, greedily) at the head. -/
def stripDigits1 (l : List Char) : Option (List Char) :=
  if (l.takeWhile Char.isDigit).isEmpty then none else some (l.dropWhile Char.isDigit)

/-- Match the start pattern
`Mutation points = \d+, unit test time limit \d+\.\d+s` at a position,
returning the rest after the match (`match.end()`). -/
def matchStartAt (l : List Char) : Option (List Char) :=
  (stripLit ("Mutation points = ".toList) l).bind fun r =>
  (stripDigits1 r).bind fun r =>
  (stripLit (", unit test time limit ".toList) r).bind fun r =>
  (stripDigits1 r).bind fun r =>
  (stripChar '.' r).bind fun r =>
  (stripDigits1 r).bind fun r =>
  stripChar 's' r

/-- Match the end pattern `Jumbling took \d+\.\d+s` at a position. -/
def matchEndAt (l : List Char) : Option (List Char) :=
  (stripLit ("Jumbling took ".toList) l).bind fun r =>
  (stripDigits1 r).bind fun r =>
  (stripChar '.' r).bind fun r =>
  (stripDigits1 r).bind fun r =>
  stripChar 's' r

/-- The ASCII `\w` class. -/
def isWordChar (c : Char) : Bool := c.isAlpha || c.isDigit || c = '_'

/-- Match the error pattern `Score: \d% \(([\w ]+)` at a position and
return the captured group.  Note the single `\d`: exactly one digit. -/
def matchErrorAt (l : List Char) : Option (List Char) :=
  (stripLit ("Score: ".toList) l).bind fun r =>
  (match r with
   | [] => none
   | c :: r2 => if c.isDigit then some r2 else none).bind fun r =>
  (stripLit ("% (".toList) r).bind fun r =>
  (let g := r.takeWhile (fun c => isWordChar c || c = ' ')
   if g.isEmpty then none else some g)

/-- Model of `start_pattern.search(text)`: leftmost match; returns the suffix
after the match end. -/
def searchStartEnd : List Char → Option (List Char)
  | [] => none
  | c :: cs =>
    match matchStartAt (c :: cs) with
    | some r => some r
    | none => searchStartEnd cs

/-- Model of `end_pattern.search(text)`: leftmost match; returns the suffix
starting at the match start. -/
def searchEndFrom : List Char → Option (List Char)
  | [] => none
  | c :: cs =>
    match matchEndAt (c :: cs) with
    | some _ => some (c :: cs)
    | none => searchEndFrom cs

/-- Model of `error_pattern.search(text)`: leftmost match; returns the captured
failure reason. -/
def searchError : List Char → Option (List Char)
  | [] => none
  | c :: cs =>
    match matchErrorAt (c :: cs) with
    | some g => some g
    | none => searchError cs

/-- The `[a-zA-Z.]` class of the qualifier in the live-mutant pattern. -/
def isQualChar (c : Char) : Bool := c.isAlpha || c = '.'

/-- The tail `\s*(.+)` of the live-mutant pattern: greedily consume
whitespace, then at least one character that is not a newline, greedily
up to the next newline; when everything left is whitespace, Python
backtracks inside the whitespace run and the match ends after the last
character that is not a newline (failing when every remaining character
is a newline, or nothing remains). -/
def matchFailTail (t : List Char) : Option (List Char) :=
  match t.dropWhile isWS with
  | c :: cs => some ((c :: cs).dropWhile (fun x => x ≠ '\n'))
  | [] =>
    if (t.reverse.takeWhile (fun c => c = '\n')).length = t.length then none
    else some (List.replicate (t.reverse.takeWhile (fun c => c = '\n')).length '\n')

/-- The literal head of the live-mutant pattern. -/
def failLit : List Char := "M FAIL:".toList

/-- Match the live-mutant pattern
`M FAIL:\s*([a-zA-Z.]+):(\d+):\s*(.+)` at a position, returning the rest
after the match. -/
def matchFailAt (l : List Char) : Option (List Char) :=
  match stripLit failLit l with
  | none => none
  | some t =>
    if ((t.dropWhile isWS).takeWhile isQualChar).isEmpty then none
    else
      match (t.dropWhile isWS).dropWhile isQualChar with
      | [] => none
      | c :: r3 =>
        if c = ':' then
          if (r3.takeWhile Char.isDigit).isEmpty then none
          else
            match r3.dropWhile Char.isDigit with
            | [] => none
            | c2 :: r5 =>
              if c2 = ':' then matchFailTail r5 else none
        else none

theorem stripLit_some_eq {p l t : List Char} (h : stripLit p l = some t) :
    l = p ++ t := by
  induction p generalizing l with
  | nil =>
    simp only [stripLit, Option.some.injEq] at h
    simpa using h
  | cons a ps ih =>
    cases l with
    | nil => simp [stripLit] at h
    | cons c cs =>
      simp only [stripLit] at h
      split at h
      · next heq => simp [heq, ih h]
      · exact absurd h (by simp)

theorem stripLit_length {p l t : List Char} (h : stripLit p l = some t) :
    l.length = p.length + t.length := by
  rw [stripLit_some_eq h, List.length_append]

theorem matchFailTail_length {t r : List Char} (h : matchFailTail t = some r) :
    r.length ≤ t.length := by
  unfold matchFailTail at h
  split at h
  · next c cs heq =>
    simp only [Option.some.injEq] at h
    have h1 : ((c :: cs).dropWhile (fun x => x ≠ '\n')).length ≤ (c :: cs).length :=
      (List.dropWhile_sublist _).length_le
    have h2 : (c :: cs).length ≤ t.length := by
      rw [← heq]; exact (List.dropWhile_sublist _).length_le
    rw [← h]
    omega
  · split at h
    · exact absurd h (by simp)
    · simp only [Option.some.injEq] at h
      have hk : (t.reverse.takeWhile (fun c => c = '\n')).length ≤ t.length := by
        calc (t.reverse.takeWhile (fun c => c = '\n')).length
            ≤ t.reverse.length := (List.takeWhile_sublist _).length_le
          _ = t.length := List.length_reverse _
      rw [← h]
      simpa using hk

theorem matchFailAt_length {l r : List Char} (h : matchFailAt l = some r) :
    r.length < l.length := by
  unfold matchFailAt at h
  split at h
  · exact absurd h (by simp)
  · next t hst =>
    have hlen : l.length = 7 + t.length := stripLit_length hst
    have hr1 : (t.dropWhile isWS).length ≤ t.length :=
      (List.dropWhile_sublist _).length_le
    split at h
    · exact absurd h (by simp)
    · split at h
      · exact absurd h (by simp)
      · next c r3 hd =>
        have hr3 : (c :: r3).length ≤ (t.dropWhile isWS).length := by
          rw [← hd]
          exact (List.dropWhile_sublist _).length_le
        split at h
        · split at h
          · exact absurd h (by simp)
          · split at h
            · exact absurd h (by simp)
            · next c2 r5 hd2 =>
              have hr5 : (c2 :: r5).length ≤ r3.length := by
                rw [← hd2]
                exact (List.dropWhile_sublist _).length_le
              split at h
              · have := matchFailTail_length h
                simp only [List.length_cons] at hr3 hr5
                omega
              · exact absurd h (by simp)
        · exact absurd h (by simp)

/-- Fuel-driven implementation of `live_mutant_pattern.subn("", region)`:
scan left to right; on a match, delete it, count it and resume after it;
otherwise keep one character and resume.  The fuel (an upper bound on
the remaining length) makes the recursion structural. -/
def subnFailAux : Nat → List Char → List Char × Nat
  | _, [] => ([], 0)
  | 0, l => (l, 0)
  | f + 1, c :: cs =>
    match matchFailAt (c :: cs) with
    | some rest =>
      let p := subnFailAux f rest
      (p.1, p.2 + 1)
    | none =>
      let p := subnFailAux f cs
      (c :: p.1, p.2)

theorem subnFailAux_fuel : ∀ (f g : Nat) (l : List Char),
    l.length ≤ f → l.length ≤ g → subnFailAux f l = subnFailAux g l := by
  intro f
  induction f with
  | zero =>
    intro g l hf _
    have : l = [] := List.eq_nil_of_length_eq_zero (Nat.le_zero.mp hf)
    subst this
    cases g <;> rfl
  | succ f ih =>
    intro g l hf hg
    cases l with
    | nil => cases g <;> rfl
    | cons c cs =>
      cases g with
      | zero => simp at hg
      | succ g' =>
        cases hm : matchFailAt (c :: cs) with
        | some rest =>
          have hr := matchFailAt_length hm
          simp only [List.length_cons] at hf hg hr
          simp only [subnFailAux, hm]
          rw [ih g' rest (by omega) (by omega)]
        | none =>
          simp only [List.length_cons] at hf hg
          simp only [subnFailAux, hm]
          rw [ih g' cs (by omega) (by omega)]

/-- Model of `live_mutant_pattern.subn("", region)`: the region with every match
of the live-mutant pattern removed, paired with the number of matches. -/
def subnFail (l : List Char) : List Char × Nat := subnFailAux l.length l

theorem subnFail_nil : subnFail [] = ([], 0) := rfl

theorem subnFail_cons_match {c : Char} {cs rest : List Char}
    (h : matchFailAt (c :: cs) = some rest) :
    subnFail (c :: cs) = ((subnFail rest).1, (subnFail rest).2 + 1) := by
  have hr := matchFailAt_length h
  simp only [List.length_cons] at hr
  show subnFailAux (cs.length + 1) (c :: cs) = _
  simp only [subnFailAux, h]
  rw [subnFailAux_fuel cs.length rest.length rest (by omega) (le_refl _)]
  rfl

theorem subnFail_cons_nomatch {c : Char} {cs : List Char}
    (h : matchFailAt (c :: cs) = none) :
    subnFail (c :: cs) = (c :: (subnFail cs).1, (subnFail cs).2) := by
  show subnFailAux (cs.length + 1) (c :: cs) = _
  simp only [subnFailAux, h]
  rfl

/-- Model of `len(re.sub(r"\s+", "", t))`: the number of characters of `t` that
are not whitespace (replacing every whitespace run by the empty string
deletes exactly the whitespace characters). -/
def countNonWS (l : List Char) : Nat := (l.filter (fun c => !isWS c)).length

/-- The `RuntimeError` message of the missing-start-marker path, with
the failure reason captured by the error pattern spliced in and the
hint naming `jumble_verbose.sh`. -/
def jumbleMsg (reason : List Char) : String :=
  "Cannot find start pattern. Jumble message: " ++ String.mk reason ++
  "\nTry running the verbose script to get more detailed information: jumble_verbose.sh"

/-- Model of `Jumble._get_mutation_score`: locate the region between the start
and end markers; on failure of either search (`AttributeError` on
`.end()` / `.start()`), re-raise as `RuntimeError` carrying the reason
captured by the error pattern, the `AttributeError` itself escaping when
that second search also fails.  On success, remove and count the
live-mutant matches, count the remaining non-whitespace characters as
killed, and build the record (`ZeroDivisionError` when the region holds
no mutants at all). -/
def jumbleScore (text : String) : Except ToolError Report :=
  let l := text.toList
  match searchStartEnd l with
  | none =>
    match searchError l with
    | some reason => .error (.runtimeError (jumbleMsg reason))
    | none => .error .attributeError
  | some s1 =>
    match searchEndFrom s1 with
    | none =>
      match searchError l with
      | some reason => .error (.runtimeError (jumbleMsg reason))
      | none => .error .attributeError
    | some s2 =>
      let region := s1.take (s1.length - s2.length)
      let p := subnFail region
      let killedCount := countNonWS p.1
      let allCount := p.2 + killedCount
      if allCount = 0 then .error .zeroDivision
      else
        .ok { killed := killedCount, live := p.2, all := (allCount : ℕ)
              score := round3 ((killedCount : ℚ) / ((allCount : ℕ) : ℚ))
              score_full := (killedCount : ℚ) / ((allCount : ℕ) : ℚ) }

/-! ## Region structure for the Jumble transcript

The transcript region strictly between the two markers is, on the
well-formed transcripts of the claim, a newline-join of lines.  A line
is counted live when it matches the live-mutant pattern from its first
character and its description contains a character that is not
whitespace (so that the match stops at the end of the line); any other
line must not contain an `'M'`, so that no live-mutant match can start
inside it. -/

/-- A line (no newline inside) that the live-mutant pattern matches
from its start, with some non-whitespace description character.  The
checks mirror `matchFailAt` step for step. -/
def isFailLine (l : List Char) : Bool :=
  l.all (fun c => c ≠ '\n') &&
  match stripLit failLit l with
  | none => false
  | some t =>
    if ((t.dropWhile isWS).takeWhile isQualChar).isEmpty then false
    else
      match (t.dropWhile isWS).dropWhile isQualChar with
      | [] => false
      | c :: r3 =>
        if c = ':' then
          if (r3.takeWhile Char.isDigit).isEmpty then false
          else
            match r3.dropWhile Char.isDigit with
            | [] => false
            | c2 :: r5 =>
              if c2 = ':' then !(r5.dropWhile isWS).isEmpty else false
        else false

/-- A line without `'M'` (and without newlines): no live-mutant match
can start at any of its positions. -/
def inertLine (l : List Char) : Bool := l.all (fun c => c ≠ 'M' && c ≠ '\n')

/-- Every line of a well-formed region is a fail line or inert. -/
def lineOk (l : List Char) : Bool := isFailLine l || inertLine l

/-- Join lines with single newlines (no trailing newline; an empty
final line encodes a trailing newline). -/
def joinLines : List (List Char) → List Char
  | [] => []
  | [l] => l
  | l :: l2 :: ls => l ++ '\n' :: joinLines (l2 :: ls)

/-- The number of live-mutant lines of a region. -/
def liveLines (ls : List (List Char)) : Nat := ls.countP isFailLine

/-- The killed-mutant count of a region: the non-whitespace characters
of the lines that are not live-mutant lines. -/
def killedSum : List (List Char) → Nat
  | [] => 0
  | l :: ls => (if isFailLine l then 0 else countNonWS l) + killedSum ls

theorem stripLit_self (p x : List Char) : stripLit p (p ++ x) = some x := by
  induction p with
  | nil => rfl
  | cons a ps ih => simp [stripLit, ih]

theorem stripLit_some_append {p l t : List Char} (r : List Char)
    (h : stripLit p l = some t) : stripLit p (l ++ r) = some (t ++ r) := by
  rw [stripLit_some_eq h, List.append_assoc]
  exact stripLit_self p (t ++ r)

theorem dropWhile_append_ne {p : Char → Bool} {l : List Char} (r : List Char)
    (h : l.dropWhile p ≠ []) : (l ++ r).dropWhile p = l.dropWhile p ++ r := by
  rw [List.dropWhile_append, if_neg]
  simp [List.isEmpty_iff, h]

theorem takeWhile_append_ne {p : Char → Bool} {l : List Char} (r : List Char)
    (h : l.dropWhile p ≠ []) : (l ++ r).takeWhile p = l.takeWhile p := by
  have hsum : (l.takeWhile p).length + (l.dropWhile p).length = l.length := by
    rw [← List.length_append, List.takeWhile_append_dropWhile]
  rw [List.takeWhile_append, if_neg]
  intro hlen
  apply h
  apply List.eq_nil_of_length_eq_zero
  omega

theorem dropWhile_eq_nil_of_all {p : Char → Bool} {l : List Char}
    (h : ∀ c ∈ l, p c = true) : l.dropWhile p = [] := by
  induction l with
  | nil => rfl
  | cons c cs ih =>
    rw [List.dropWhile_cons, if_pos (h c (List.mem_cons_self c cs))]
    exact ih (fun x (hx : x ∈ cs) => h x (List.mem_cons_of_mem c hx))

theorem stripLit_failLit_none {c : Char} (cs : List Char) (h : c ≠ 'M') :
    stripLit failLit (c :: cs) = none := by
  have he : failLit = 'M' :: " FAIL:".toList := rfl
  rw [he]
  simp only [stripLit]
  rw [if_neg (fun hx => h hx.symm)]

theorem countNonWS_append (a b : List Char) :
    countNonWS (a ++ b) = countNonWS a + countNonWS b := by
  simp [countNonWS, List.filter_append]

theorem countNonWS_newline_cons (a : List Char) :
    countNonWS ('\n' :: a) = countNonWS a := by
  simp [countNonWS, List.filter_cons, isWS]

/-- A well-formed fail line is matched by the live-mutant pattern
exactly up to its end: standing alone the match consumes the whole
line, and followed by a newline and anything else the match stops at
that newline. -/
theorem isFailLine_matchFailAt {l : List Char} (h : isFailLine l = true) :
    matchFailAt l = some [] ∧
      ∀ r, matchFailAt (l ++ '\n' :: r) = some ('\n' :: r) := by
  rw [isFailLine, Bool.and_eq_true] at h
  obtain ⟨hall, h⟩ := h
  have hnl : ∀ c ∈ l, c ≠ '\n' := by
    intro c hc
    simpa using List.all_eq_true.mp hall c hc
  cases hst : stripLit failLit l with
  | none => rw [hst] at h; simp at h
  | some t =>
    rw [hst] at h
    simp only at h
    by_cases hq : ((t.dropWhile isWS).takeWhile isQualChar).isEmpty = true
    · rw [if_pos hq] at h; simp at h
    · rw [if_neg hq] at h
      cases hd : (t.dropWhile isWS).dropWhile isQualChar with
      | nil => rw [hd] at h; simp at h
      | cons c r3 =>
        rw [hd] at h
        simp only at h
        by_cases hc : c = ':'
        · subst hc
          rw [if_pos rfl] at h
          by_cases hdig : (r3.takeWhile Char.isDigit).isEmpty = true
          · rw [if_pos hdig] at h; simp at h
          · rw [if_neg hdig] at h
            cases hd2 : r3.dropWhile Char.isDigit with
            | nil => rw [hd2] at h; simp at h
            | cons c2 r5 =>
              rw [hd2] at h
              simp only at h
              by_cases hc2 : c2 = ':'
              · subst hc2
                rw [if_pos rfl] at h
                -- h : !(r5.dropWhile isWS).isEmpty = true
                have hne5 : r5.dropWhile isWS ≠ [] := by
                  intro he; rw [he] at h; simp at h
                have hne1 : t.dropWhile isWS ≠ [] := by
                  intro he
                  rw [he] at hq
                  simp at hq
                have hne2 : (t.dropWhile isWS).dropWhile isQualChar ≠ [] := by
                  rw [hd]; simp
                have hne3 : r3.dropWhile Char.isDigit ≠ [] := by
                  rw [hd2]; simp
                have hmt : ∀ c ∈ t, c ≠ '\n' := by
                  intro c hc
                  exact hnl c (by
                    rw [stripLit_some_eq hst]
                    exact List.mem_append_right _ hc)
                have hm1 : ∀ c ∈ t.dropWhile isWS, c ≠ '\n' :=
                  fun c hc => hmt c ((List.dropWhile_sublist _).subset hc)
                have hm3 : ∀ c ∈ r3, c ≠ '\n' := by
                  intro c hc
                  apply hm1
                  have hc' : c ∈ (t.dropWhile isWS).dropWhile isQualChar := by
                    rw [hd]; exact List.mem_cons_of_mem _ hc
                  exact (List.dropWhile_sublist _).subset hc'
                have hm5 : ∀ c ∈ r5, c ≠ '\n' := by
                  intro c hc
                  apply hm3
                  have hc' : c ∈ r3.dropWhile Char.isDigit := by
                    rw [hd2]; exact List.mem_cons_of_mem _ hc
                  exact (List.dropWhile_sublist _).subset hc'
                have hm5' : ∀ c ∈ r5.dropWhile isWS, (decide (c ≠ '\n')) = true := by
                  intro c hc
                  simpa using hm5 c ((List.dropWhile_sublist _).subset hc)
                constructor
                · -- the bare line is consumed entirely
                  simp only [matchFailAt, hst, if_neg hq, hd, if_neg hdig, hd2]
                  cases hdw : r5.dropWhile isWS with
                  | nil => exact absurd hdw hne5
                  | cons d ds =>
                    simp only [matchFailTail, hdw]
                    have hnil : (d :: ds).dropWhile (fun x => decide (x ≠ '\n')) = [] := by
                      apply dropWhile_eq_nil_of_all
                      intro c hc
                      rw [← hdw] at hc
                      exact hm5' c hc
                    rw [hnil]
                    simp
                · -- followed by a newline, the match stops there
                  intro r
                  have e0 : stripLit failLit (l ++ '\n' :: r) = some (t ++ '\n' :: r) :=
                    stripLit_some_append _ hst
                  have e1 : (t ++ '\n' :: r).dropWhile isWS =
                      t.dropWhile isWS ++ '\n' :: r :=
                    dropWhile_append_ne _ hne1
                  have e2 : (t.dropWhile isWS ++ '\n' :: r).takeWhile isQualChar =
                      (t.dropWhile isWS).takeWhile isQualChar :=
                    takeWhile_append_ne _ hne2
                  have e3 : (t.dropWhile isWS ++ '\n' :: r).dropWhile isQualChar =
                      ':' :: (r3 ++ '\n' :: r) := by
                    rw [dropWhile_append_ne _ hne2, hd]; rfl
                  have e4 : (r3 ++ '\n' :: r).takeWhile Char.isDigit =
                      r3.takeWhile Char.isDigit :=
                    takeWhile_append_ne _ hne3
                  have e5 : (r3 ++ '\n' :: r).dropWhile Char.isDigit =
                      ':' :: (r5 ++ '\n' :: r) := by
                    rw [dropWhile_append_ne _ hne3, hd2]; rfl
                  have e6 : (r5 ++ '\n' :: r).dropWhile isWS =
                      r5.dropWhile isWS ++ '\n' :: r :=
                    dropWhile_append_ne _ hne5
                  simp only [matchFailAt, e0, e1, e2, if_neg hq, e3, e4,
                    if_neg hdig, e5]
                  cases hdw : r5.dropWhile isWS with
                  | nil => exact absurd hdw hne5
                  | cons d ds =>
                    rw [hdw] at e6
                    have hall' : ∀ c ∈ d :: ds, (decide (c ≠ '\n')) = true := by
                      intro c hc
                      rw [← hdw] at hc
                      exact hm5' c hc
                    have hnil2 : (d :: (ds ++ '\n' :: r)).dropWhile
                        (fun x => decide (x ≠ '\n')) = '\n' :: r := by
                      rw [show d :: (ds ++ '\n' :: r) = (d :: ds) ++ '\n' :: r from rfl,
                        List.dropWhile_append_of_pos hall', List.dropWhile_cons]
                      simp
                    simp only [matchFailTail, e6, List.cons_append]
                    rw [hnil2]
                    simp
              · rw [if_neg hc2] at h; simp at h
        · rw [if_neg hc] at h; simp at h

/-- No live-mutant match can start inside text without `'M'`, so the
scan walks over it character by character, keeping it. -/
theorem subnFail_inert_append {l : List Char} (r : List Char)
    (h : ∀ c ∈ l, c ≠ 'M') :
    subnFail (l ++ r) = (l ++ (subnFail r).1, (subnFail r).2) := by
  induction l with
  | nil => simp
  | cons c cs ih =>
    have hm : matchFailAt (c :: (cs ++ r)) = none := by
      unfold matchFailAt
      rw [stripLit_failLit_none _ (h c (List.mem_cons_self c cs))]
    rw [List.cons_append, subnFail_cons_nomatch hm,
      ih (fun x (hx : x ∈ cs) => h x (List.mem_cons_of_mem c hx))]
    simp

theorem inert_no_M {l : List Char} (h : inertLine l = true) :
    ∀ c ∈ l, c ≠ 'M' := by
  intro c hc
  simp only [inertLine] at h
  have := List.all_eq_true.mp h c hc
  rw [Bool.and_eq_true] at this
  simpa using this.1

theorem isFailLine_eq_false_of_inert {l : List Char} (h : inertLine l = true) :
    isFailLine l = false := by
  cases l with
  | nil => rfl
  | cons c cs =>
    have hc : c ≠ 'M' := inert_no_M h c (List.mem_cons_self c cs)
    rw [isFailLine, stripLit_failLit_none cs hc]
    simp

/-- The subn scan over a well-formed region: every fail line is removed
and counted, everything else is kept. -/
theorem subnFail_joinLines : ∀ ls : List (List Char),
    (∀ l ∈ ls, lineOk l = true) →
    (subnFail (joinLines ls)).2 = liveLines ls ∧
      countNonWS (subnFail (joinLines ls)).1 = killedSum ls := by
  intro ls
  induction ls with
  | nil =>
    intro _
    exact ⟨rfl, rfl⟩
  | cons l ls ih =>
    intro hok
    have hl : lineOk l = true := hok l (List.mem_cons_self l ls)
    rw [lineOk, Bool.or_eq_true] at hl
    cases ls with
    | nil =>
      rcases hl with hf | hin
      · obtain ⟨hbare, _⟩ := isFailLine_matchFailAt hf
        have hlne : l ≠ [] := by
          intro he
          rw [he] at hbare
          exact absurd hbare (by decide)
        cases l with
        | nil => exact absurd rfl hlne
        | cons c cs =>
          show (subnFail (c :: cs)).2 = _ ∧ countNonWS (subnFail (c :: cs)).1 = _
          rw [subnFail_cons_match hbare, subnFail_nil]
          simp [liveLines, killedSum, List.countP_cons, hf, countNonWS]
      · show (subnFail (joinLines [l])).2 = _ ∧
          countNonWS (subnFail (joinLines [l])).1 = _
        have he : joinLines [l] = l ++ [] := by simp [joinLines]
        rw [he, subnFail_inert_append [] (inert_no_M hin)]
        simp [liveLines, killedSum, List.countP_cons, subnFail_nil,
          isFailLine_eq_false_of_inert hin, countNonWS]
    | cons l2 ls2 =>
      have hJ : joinLines (l :: l2 :: ls2) = l ++ '\n' :: joinLines (l2 :: ls2) := rfl
      have ihr := ih (fun x hx => hok x (List.mem_cons_of_mem l hx))
      have hstep : subnFail ('\n' :: joinLines (l2 :: ls2)) =
          ('\n' :: (subnFail (joinLines (l2 :: ls2))).1,
            (subnFail (joinLines (l2 :: ls2))).2) := by
        have h1 := subnFail_inert_append (l := ['\n']) (joinLines (l2 :: ls2))
          (by decide)
        simpa using h1
      rcases hl with hf | hin
      · have happ := (isFailLine_matchFailAt hf).2 (joinLines (l2 :: ls2))
        have hlne : l ≠ [] := by
          intro he
          have hb := (isFailLine_matchFailAt hf).1
          rw [he] at hb
          exact absurd hb (by decide)
        cases l with
        | nil => exact absurd rfl hlne
        | cons c cs =>
          rw [List.cons_append] at happ
          have e1 : (subnFail (joinLines ((c :: cs) :: l2 :: ls2))).2 =
              (subnFail (joinLines (l2 :: ls2))).2 + 1 := by
            rw [hJ, List.cons_append, subnFail_cons_match happ, hstep]
          have e2 : countNonWS (subnFail (joinLines ((c :: cs) :: l2 :: ls2))).1 =
              countNonWS (subnFail (joinLines (l2 :: ls2))).1 := by
            rw [hJ, List.cons_append, subnFail_cons_match happ, hstep]
            exact countNonWS_newline_cons _
          constructor
          · rw [e1, ihr.1]
            rw [show liveLines ((c :: cs) :: l2 :: ls2) =
              (if isFailLine (c :: cs) then 1 else 0) + liveLines (l2 :: ls2) from by
                simp [liveLines, List.countP_cons, Nat.add_comm], hf]
            simp [Nat.add_comm]
          · rw [e2, ihr.2]
            rw [show killedSum ((c :: cs) :: l2 :: ls2) =
              (if isFailLine (c :: cs) then 0 else countNonWS (c :: cs)) +
                killedSum (l2 :: ls2) from rfl, hf]
            simp
      · have hMs : ∀ c ∈ l ++ ['\n'], c ≠ 'M' := by
          intro c hc
          rcases List.mem_append.mp hc with hc | hc
          · exact inert_no_M hin c hc
          · simp at hc
            subst hc
            decide
        have hassoc : l ++ '\n' :: joinLines (l2 :: ls2) =
            (l ++ ['\n']) ++ joinLines (l2 :: ls2) := by
          simp
        have e1 : (subnFail (joinLines (l :: l2 :: ls2))).2 =
            (subnFail (joinLines (l2 :: ls2))).2 := by
          rw [hJ, hassoc, subnFail_inert_append _ hMs]
        have e2 : countNonWS (subnFail (joinLines (l :: l2 :: ls2))).1 =
            countNonWS l + countNonWS (subnFail (joinLines (l2 :: ls2))).1 := by
          rw [hJ, hassoc, subnFail_inert_append _ hMs]
          have h3 : countNonWS ((l ++ ['\n']) ++ (subnFail (joinLines (l2 :: ls2))).1) =
              countNonWS l + countNonWS ['\n'] +
                countNonWS (subnFail (joinLines (l2 :: ls2))).1 := by
            rw [countNonWS_append, countNonWS_append]
          rw [h3]
          have h4 : countNonWS ['\n'] = 0 := rfl
          omega
        constructor
        · rw [e1, ihr.1]
          rw [show liveLines (l :: l2 :: ls2) =
            (if isFailLine l then 1 else 0) + liveLines (l2 :: ls2) from by
              simp [liveLines, List.countP_cons, Nat.add_comm],
            isFailLine_eq_false_of_inert hin]
          simp
        · rw [e2, ihr.2]
          rw [show killedSum (l :: l2 :: ls2) =
            (if isFailLine l then 0 else countNonWS l) + killedSum (l2 :: ls2) from rfl,
            isFailLine_eq_false_of_inert hin]
          simp

/-! ## Shared inversion lemmas for the four parsers -/

/-- The `(killed, live, all)` counts of a returned record, `none` when
the parser raised. -/
def exceptCounts : Except ToolError Report → Option (Int × Int × Int)
  | .ok r => some (r.killed, r.live, r.all)
  | .error _ => none

theorem judyScore_ok_inv {cls : String} {es : List JudyClassEntry} {r : Report}
    (h : judyScore cls es = .ok r) :
    ∃ e, es.filter (fun e => decide (e.name = cls)) = [e] ∧ e.mutantsCount ≠ 0 ∧
      r = { killed := e.mutantsKilledCount
            live := e.mutantsCount - e.mutantsKilledCount
            all := e.mutantsCount
            score := round3 ((e.mutantsKilledCount : ℚ) / (e.mutantsCount : ℚ))
            score_full := (e.mutantsKilledCount : ℚ) / (e.mutantsCount : ℚ) } := by
  unfold judyScore at h
  split at h
  · exact absurd h (by simp)
  · next e heq =>
    split at h
    · exact absurd h (by simp)
    · next hne =>
      refine ⟨e, heq, hne, ?_⟩
      injection h with h
      exact h.symm
  · exact absurd h (by simp)

theorem jumbleScore_ok_inv {text : String} {r : Report}
    (h : jumbleScore text = .ok r) :
    ∃ n k : ℕ, n + k ≠ 0 ∧
      r = { killed := (k : ℤ), live := (n : ℤ), all := ((n + k : ℕ) : ℤ)
            score := round3 ((k : ℚ) / ((n + k : ℕ) : ℚ))
            score_full := (k : ℚ) / ((n + k : ℕ) : ℚ) } := by
  simp only [jumbleScore] at h
  split at h
  · split at h <;> exact absurd h (by simp)
  · next s1 _ =>
    split at h
    · split at h <;> exact absurd h (by simp)
    · next s2 _ =>
      split at h
      · exact absurd h (by simp)
      · next hne =>
        refine ⟨(subnFail (s1.take (s1.length - s2.length))).2,
          countNonWS (subnFail (s1.take (s1.length - s2.length))).1, hne, ?_⟩
        injection h with h
        exact h.symm

theorem majorScore_ok_inv {mutants : List Int} {kill : List (Int × String)}
    {r : Report} (h : majorScore mutants kill = .ok r) :
    (kill = [] ∧ r = { killed := 0, live := (mutants.length : ℤ)
                       all := (mutants.length : ℤ), score := 0, score_full := 0 }) ∨
    (kill ≠ [] ∧ ∃ lv al : ℕ, lv ≤ al ∧ al ≠ 0 ∧
      lv = (majorStatuses mutants kill).countP (fun s => decide (s = some "LIVE")) ∧
      al = (majorStatuses mutants kill).length ∧
      r = { killed := ((al - lv : ℕ) : ℤ), live := (lv : ℤ), all := (al : ℤ)
            score := round3 (((al - lv : ℕ) : ℚ) / ((al : ℕ) : ℚ))
            score_full := ((al - lv : ℕ) : ℚ) / ((al : ℕ) : ℚ) }) := by
  simp only [majorScore] at h
  split at h
  · left
    refine ⟨rfl, ?_⟩
    injection h with h
    exact h.symm
  · next k ks =>
    right
    refine ⟨by simp, ?_⟩
    split at h
    · exact absurd h (by simp)
    · next hne =>
      refine ⟨(majorStatuses mutants (k :: ks)).countP (fun s => decide (s = some "LIVE")),
        (majorStatuses mutants (k :: ks)).length, List.countP_le_length _, hne,
        rfl, rfl, ?_⟩
      injection h with h
      exact h.symm

theorem pitScore_ok_inv {ds : List (Option String)} {r : Report}
    (h : pitScore ds = .ok r) :
    ∃ k l : ℕ, k + l ≠ 0 ∧ pitCounts ds = .ok (k, l) ∧
      r = { killed := (k : ℤ), live := (l : ℤ), all := ((k + l : ℕ) : ℤ)
            score := round3 ((k : ℚ) / ((k + l : ℕ) : ℚ))
            score_full := (k : ℚ) / ((k + l : ℕ) : ℚ) } := by
  unfold pitScore at h
  split at h
  · exact absurd h (by simp)
  · next k l heq =>
    split at h
    · exact absurd h (by simp)
    · next hne =>
      refine ⟨k, l, hne, heq, ?_⟩
      injection h with h
      exact h.symm

/-! ## Join-column lemmas for Major -/

theorem majorStatuses_append (a b : List Int) (kill : List (Int × String)) :
    majorStatuses (a ++ b) kill = majorStatuses a kill ++ majorStatuses b kill := by
  induction a with
  | nil => rfl
  | cons i is ih =>
    simp only [List.cons_append, majorStatuses, List.append_eq]
    rw [ih]
    exact (List.append_assoc _ _ _).symm

/-- With pairwise-distinct kill ids, the rows matching an id form at
most a singleton: exactly the row `find?` locates. -/
theorem filter_key_nodup {kill : List (Int × String)} (i : Int)
    (h : (kill.map Prod.fst).Nodup) :
    kill.filter (fun p => decide (p.1 = i)) =
      match kill.find? (fun p => decide (p.1 = i)) with
      | none => []
      | some p => [p] := by
  induction kill with
  | nil => rfl
  | cons a ks ih =>
    rw [List.map_cons, List.nodup_cons] at h
    by_cases hai : a.1 = i
    · have hks : ks.filter (fun p => decide (p.1 = i)) = [] := by
        apply List.filter_eq_nil_iff.mpr
        intro p hp
        simp only [decide_eq_true_eq]
        intro hpi
        exact h.1 (by
          rw [hai, ← hpi]
          exact List.mem_map_of_mem Prod.fst hp)
      simp [List.filter_cons, List.find?_cons, hai, hks]
    · simp [List.filter_cons, List.find?_cons, hai, ih h.2]

/-- With pairwise-distinct kill ids, the join column is the pointwise
kill status of each described mutant. -/
theorem majorStatuses_map (mutants : List Int) (kill : List (Int × String))
    (h : (kill.map Prod.fst).Nodup) :
    majorStatuses mutants kill = mutants.map (fun i => killStatusOf kill i) := by
  induction mutants with
  | nil => rfl
  | cons i is ih =>
    rw [List.map_cons, ← ih]
    simp only [majorStatuses]
    rw [filter_key_nodup i h]
    cases hf : kill.find? (fun p => decide (p.1 = i)) with
    | none => simp [killStatusOf, hf]
    | some p => simp [killStatusOf, hf]

/-! ## Counting lemma for Pit -/

theorem pitCounts_ok {ds : List (Option String)}
    (h : ∀ d ∈ ds, d = some "true" ∨ d = some "false") :
    pitCounts ds = .ok (ds.countP (fun d => decide (d = some "true")),
      ds.countP (fun d => decide (d = some "false"))) := by
  induction ds with
  | nil => rfl
  | cons d ds ih =>
    have ihr := ih (fun x hx => h x (List.mem_cons_of_mem d hx))
    rcases h d (List.mem_cons_self d ds) with hd | hd <;> subst hd <;>
      simp [pitCounts, ihr, List.countP_cons, Except.map]

/-! ## Claims C1 and C2 -/

/-- The score contract of claim C2 on one record. -/
def scoreSpec (r : Report) : Prop :=
  (0 < r.all → r.score = round3 ((r.killed : ℚ) / (r.all : ℚ)) ∧
    r.score_full = (r.killed : ℚ) / (r.all : ℚ)) ∧
  (r.all = 0 → r.score = 0 ∧ r.score_full = 0)

theorem round3_zero : round3 0 = 0 := by
  show (roundHalfEven (0 * 1000) : ℚ) / 1000 = 0
  norm_num [roundHalfEven]

theorem scoreSpec_mk (k a l : ℤ) (ha : a ≠ 0) :
    scoreSpec { killed := k, live := l, all := a
                score := round3 ((k : ℚ) / (a : ℚ))
                score_full := (k : ℚ) / (a : ℚ) } := by
  constructor
  · intro _
    exact ⟨rfl, rfl⟩
  · intro hz
    exact absurd hz ha

theorem scoreSpec_mk_nat (k n a : ℕ) (ha : a ≠ 0) :
    scoreSpec { killed := (k : ℤ), live := (n : ℤ), all := ((a : ℕ) : ℤ)
                score := round3 ((k : ℚ) / ((a : ℕ) : ℚ))
                score_full := (k : ℚ) / ((a : ℕ) : ℚ) } := by
  constructor
  · intro _
    constructor
    · show round3 (((k : ℤ) : ℚ) / (((a : ℕ) : ℤ) : ℚ)) = round3 ((k : ℚ) / ((a : ℕ) : ℚ))
      simp only [Int.cast_natCast]
    · show ((k : ℤ) : ℚ) / (((a : ℕ) : ℤ) : ℚ) = (k : ℚ) / ((a : ℕ) : ℚ)
      simp only [Int.cast_natCast]
  · intro hz
    have hz' : ((a : ℕ) : ℤ) = 0 := hz
    have ha' : a = 0 := by exact_mod_cast hz'
    exact absurd ha' ha

/-- Claim C1: for every report accepted by any of the four parsers, the
returned canonical record satisfies killed + live = all, including
Major's degenerate empty-kill-table case where all = 0. -/
theorem c1_killed_live_all :
    (∀ cls es r, judyScore cls es = .ok r → r.killed + r.live = r.all) ∧
    (∀ text r, jumbleScore text = .ok r → r.killed + r.live = r.all) ∧
    (∀ mutants kill r, majorScore mutants kill = .ok r → r.killed + r.live = r.all) ∧
    (∀ ds r, pitScore ds = .ok r → r.killed + r.live = r.all) := by
  refine ⟨?_, ?_, ?_, ?_⟩
  · intro cls es r h
    obtain ⟨e, -, -, rfl⟩ := judyScore_ok_inv h
    show e.mutantsKilledCount + (e.mutantsCount - e.mutantsKilledCount) = e.mutantsCount
    ring
  · intro text r h
    obtain ⟨n, k, -, rfl⟩ := jumbleScore_ok_inv h
    show (k : ℤ) + (n : ℤ) = ((n + k : ℕ) : ℤ)
    omega
  · intro mutants kill r h
    rcases majorScore_ok_inv h with ⟨-, rfl⟩ | ⟨-, lv, al, hle, -, -, -, rfl⟩
    · show (0 : ℤ) + (mutants.length : ℤ) = (mutants.length : ℤ)
      omega
    · show ((al - lv : ℕ) : ℤ) + (lv : ℤ) = (al : ℤ)
      omega
  · intro ds r h
    obtain ⟨k, l, -, -, rfl⟩ := pitScore_ok_inv h
    show (k : ℤ) + (l : ℤ) = ((k + l : ℕ) : ℤ)
    omega

/-- Witness for C1: one accepted report per parser, with killed + live
= all checked on the returned record. -/
theorem c1_killed_live_all_witness :
    (judyScore "a.B" [⟨"a.B", 10, 7⟩] = .ok
      { killed := 7, live := 3, all := 10
        score := round3 (((7 : ℤ) : ℚ) / ((10 : ℤ) : ℚ))
        score_full := ((7 : ℤ) : ℚ) / ((10 : ℤ) : ℚ) } ∧
      (7 : ℤ) + 3 = 10) ∧
    (jumbleScore "Mutation points = 1, unit test time limit 2.0s\n. .\nJumbling took 1.0s" =
      .ok { killed := 2, live := 0, all := 2
            score := round3 (((2 : ℕ) : ℚ) / ((2 : ℕ) : ℚ))
            score_full := ((2 : ℕ) : ℚ) / ((2 : ℕ) : ℚ) } ∧
      (2 : ℤ) + 0 = 2) ∧
    (majorScore [1, 2] [(1, "LIVE")] = .ok
      { killed := 1, live := 1, all := 2
        score := round3 (((1 : ℕ) : ℚ) / ((2 : ℕ) : ℚ))
        score_full := ((1 : ℕ) : ℚ) / ((2 : ℕ) : ℚ) } ∧
      (1 : ℤ) + 1 = 2) ∧
    (pitScore [some "true", some "false"] = .ok
      { killed := 1, live := 1, all := 2
        score := round3 (((1 : ℕ) : ℚ) / ((2 : ℕ) : ℚ))
        score_full := ((1 : ℕ) : ℚ) / ((2 : ℕ) : ℚ) } ∧
      (1 : ℤ) + 1 = 2) := by
  refine ⟨⟨rfl, ?_⟩, ⟨rfl, ?_⟩, ⟨rfl, ?_⟩, ⟨rfl, ?_⟩⟩
  · exact c1_killed_live_all.1 "a.B" [⟨"a.B", 10, 7⟩] _ rfl
  · exact c1_killed_live_all.2.1
      "Mutation points = 1, unit test time limit 2.0s\n. .\nJumbling took 1.0s" _ rfl
  · exact c1_killed_live_all.2.2.1 [1, 2] [(1, "LIVE")] _ rfl
  · exact c1_killed_live_all.2.2.2 [some "true", some "false"] _ rfl

/-- Claim C2: for every record returned by any of the four parsers,
score = round(killed/all, 3) and score_full = killed/all whenever
all > 0; whenever all = 0 (reachable only through Major's empty
kill-status table, which always returns a record rather than raising a
division-by-zero error), score = score_full = 0. -/
theorem c2_score_rounding :
    (∀ cls es r, judyScore cls es = .ok r → scoreSpec r) ∧
    (∀ text r, jumbleScore text = .ok r → scoreSpec r) ∧
    (∀ mutants kill r, majorScore mutants kill = .ok r → scoreSpec r) ∧
    (∀ ds r, pitScore ds = .ok r → scoreSpec r) ∧
    (∀ mutants, majorScore mutants [] = .ok
      { killed := 0, live := (mutants.length : ℤ), all := (mutants.length : ℤ)
        score := 0, score_full := 0 }) := by
  refine ⟨?_, ?_, ?_, ?_, fun mutants => rfl⟩
  · intro cls es r h
    obtain ⟨e, -, hne, rfl⟩ := judyScore_ok_inv h
    exact scoreSpec_mk _ _ _ hne
  · intro text r h
    obtain ⟨n, k, hne, rfl⟩ := jumbleScore_ok_inv h
    exact scoreSpec_mk_nat k n (n + k) hne
  · intro mutants kill r h
    rcases majorScore_ok_inv h with ⟨-, rfl⟩ | ⟨-, lv, al, hle, hal, -, -, rfl⟩
    · constructor
      · intro _
        constructor
        · show (0 : ℚ) = round3 (((0 : ℤ) : ℚ) / ((mutants.length : ℤ) : ℚ))
          norm_num [round3_zero]
        · show (0 : ℚ) = ((0 : ℤ) : ℚ) / ((mutants.length : ℤ) : ℚ)
          norm_num
      · intro _
        exact ⟨rfl, rfl⟩
    · exact scoreSpec_mk_nat (al - lv) lv al hal
  · intro ds r h
    obtain ⟨k, l, hne, -, rfl⟩ := pitScore_ok_inv h
    exact scoreSpec_mk_nat k l (k + l) hne

/-- Witness for C2: a record with all > 0 for each parser and the
all = 0 record of the empty Major kill table. -/
theorem c2_score_rounding_witness :
    (judyScore "a.B" [⟨"a.B", 10, 7⟩] = .ok
      { killed := 7, live := 3, all := 10,
        score := round3 (((7 : ℤ) : ℚ) / ((10 : ℤ) : ℚ)),
        score_full := ((7 : ℤ) : ℚ) / ((10 : ℤ) : ℚ) } ∧
      scoreSpec { killed := 7, live := 3, all := 10,
                  score := round3 (((7 : ℤ) : ℚ) / ((10 : ℤ) : ℚ)),
                  score_full := ((7 : ℤ) : ℚ) / ((10 : ℤ) : ℚ) }) ∧
    (jumbleScore "Mutation points = 1, unit test time limit 2.0s\n. .\nJumbling took 1.0s" =
      .ok { killed := 2, live := 0, all := 2,
            score := round3 (((2 : ℕ) : ℚ) / ((2 : ℕ) : ℚ)),
            score_full := ((2 : ℕ) : ℚ) / ((2 : ℕ) : ℚ) } ∧
      scoreSpec { killed := 2, live := 0, all := 2,
                  score := round3 (((2 : ℕ) : ℚ) / ((2 : ℕ) : ℚ)),
                  score_full := ((2 : ℕ) : ℚ) / ((2 : ℕ) : ℚ) }) ∧
    (pitScore [some "true", some "false"] = .ok
      { killed := 1, live := 1, all := 2,
        score := round3 (((1 : ℕ) : ℚ) / ((2 : ℕ) : ℚ)),
        score_full := ((1 : ℕ) : ℚ) / ((2 : ℕ) : ℚ) } ∧
      scoreSpec { killed := 1, live := 1, all := 2,
                  score := round3 (((1 : ℕ) : ℚ) / ((2 : ℕ) : ℚ)),
                  score_full := ((1 : ℕ) : ℚ) / ((2 : ℕ) : ℚ) }) ∧
    (majorScore ([] : List Int) [] = .ok
      { killed := 0, live := 0, all := 0, score := 0, score_full := 0 } ∧
      scoreSpec { killed := 0, live := 0, all := 0, score := 0, score_full := 0 }) := by
  refine ⟨⟨rfl, ?_⟩, ⟨rfl, ?_⟩, ⟨rfl, ?_⟩, ⟨rfl, ?_⟩⟩
  · exact c2_score_rounding.1 "a.B" [⟨"a.B", 10, 7⟩] _ rfl
  · exact c2_score_rounding.2.1
      "Mutation points = 1, unit test time limit 2.0s\n. .\nJumbling took 1.0s" _ rfl
  · exact c2_score_rounding.2.2.2.1 [some "true", some "false"] _ rfl
  · exact c2_score_rounding.2.2.1 [] [] _ rfl

/-! ## Claims C3 and C4 -/

/-- Counterexample to claim C3 as stated: a transcript containing the
start marker followed by the end marker whose inter-marker region is
empty makes the parser raise `ZeroDivisionError` (killed = live = all =
0) instead of returning a record. -/
theorem c3_counterexample :
    jumbleScore "Mutation points = 1, unit test time limit 2.0sJumbling took 1.0s" =
      .error .zeroDivision ∧
    exceptIsOk (jumbleScore
      "Mutation points = 1, unit test time limit 2.0sJumbling took 1.0s") = false :=
  ⟨rfl, rfl⟩

/-- Claim C3 (amended): for every transcript in which the start-marker
search succeeds and the end-marker search on the remainder succeeds,
with the region strictly between the markers a newline-join of lines —
each either a fail line matching the live-mutant pattern from its
start with a non-whitespace description, or a line containing no 'M' —
and with at least one mutant in the region, the parser returns live =
the number of fail lines, killed = the number of non-whitespace
characters of the remaining lines, and all = killed + live. -/
theorem c3_jumble_region_counts (text : String) (ls : List (List Char))
    (tl : List Char)
    (hstart : searchStartEnd text.toList = some (joinLines ls ++ tl))
    (hend : searchEndFrom (joinLines ls ++ tl) = some tl)
    (hok : ∀ l ∈ ls, lineOk l = true)
    (hpos : liveLines ls + killedSum ls ≠ 0) :
    jumbleScore text = .ok
      { killed := (killedSum ls : ℤ), live := (liveLines ls : ℤ)
        all := ((liveLines ls + killedSum ls : ℕ) : ℤ)
        score := round3 ((killedSum ls : ℚ) / ((liveLines ls + killedSum ls : ℕ) : ℚ))
        score_full := (killedSum ls : ℚ) / ((liveLines ls + killedSum ls : ℕ) : ℚ) } := by
  have hreg : (joinLines ls ++ tl).take ((joinLines ls ++ tl).length - tl.length) =
      joinLines ls := by
    rw [List.length_append, Nat.add_sub_cancel]
    exact List.take_left _ _
  obtain ⟨hlive, hkill⟩ := subnFail_joinLines ls hok
  simp only [jumbleScore, hstart, hend, hreg, hlive, hkill]
  rw [if_neg hpos]

/-- Witness for the amended C3 at the spec's example shape: three fail
lines and five whitespace-separated dots between the markers give
killed = 5, live = 3, all = 8. -/
theorem c3_jumble_region_counts_witness :
    (searchStartEnd ("Mutation points = 8, unit test time limit 2.0s\nM FAIL: com.Foo:12: desc one\nM FAIL: com.Foo:34: desc two\nM FAIL: com.Bar:5: desc three\n. . .\n. .\nJumbling took 1.2s\n".toList) =
      some (joinLines [[], "M FAIL: com.Foo:12: desc one".toList,
        "M FAIL: com.Foo:34: desc two".toList, "M FAIL: com.Bar:5: desc three".toList,
        ". . .".toList, ". .".toList, []] ++ "Jumbling took 1.2s\n".toList)) ∧
    (searchEndFrom (joinLines [[], "M FAIL: com.Foo:12: desc one".toList,
        "M FAIL: com.Foo:34: desc two".toList, "M FAIL: com.Bar:5: desc three".toList,
        ". . .".toList, ". .".toList, []] ++ "Jumbling took 1.2s\n".toList) =
      some ("Jumbling took 1.2s\n".toList)) ∧
    (∀ l ∈ [[], "M FAIL: com.Foo:12: desc one".toList,
        "M FAIL: com.Foo:34: desc two".toList, "M FAIL: com.Bar:5: desc three".toList,
        ". . .".toList, ". .".toList, []], lineOk l = true) ∧
    (liveLines [[], "M FAIL: com.Foo:12: desc one".toList,
        "M FAIL: com.Foo:34: desc two".toList, "M FAIL: com.Bar:5: desc three".toList,
        ". . .".toList, ". .".toList, []] +
      killedSum [[], "M FAIL: com.Foo:12: desc one".toList,
        "M FAIL: com.Foo:34: desc two".toList, "M FAIL: com.Bar:5: desc three".toList,
        ". . .".toList, ". .".toList, []] ≠ 0) ∧
    jumbleScore "Mutation points = 8, unit test time limit 2.0s\nM FAIL: com.Foo:12: desc one\nM FAIL: com.Foo:34: desc two\nM FAIL: com.Bar:5: desc three\n. . .\n. .\nJumbling took 1.2s\n" =
      .ok { killed := 5, live := 3, all := 8
            score := round3 (((5 : ℕ) : ℚ) / ((8 : ℕ) : ℚ))
            score_full := ((5 : ℕ) : ℚ) / ((8 : ℕ) : ℚ) } := by
  refine ⟨rfl, rfl, by decide, by decide, ?_⟩
  exact c3_jumble_region_counts
    "Mutation points = 8, unit test time limit 2.0s\nM FAIL: com.Foo:12: desc one\nM FAIL: com.Foo:34: desc two\nM FAIL: com.Bar:5: desc three\n. . .\n. .\nJumbling took 1.2s\n"
    [[], "M FAIL: com.Foo:12: desc one".toList,
      "M FAIL: com.Foo:34: desc two".toList, "M FAIL: com.Bar:5: desc three".toList,
      ". . .".toList, ". .".toList, []]
    ("Jumbling took 1.2s\n".toList) rfl rfl (by decide) (by decide)

/-- Counterexample to claim C4 as stated: with a two-digit percentage
in the Score line, the error pattern `Score: \d% \(([\w ]+)` (one
single `\d`) does not match, and the parser escapes with the raw
`AttributeError` instead of the `RuntimeError` carrying the reason. -/
theorem c4_counterexample :
    jumbleScore "Score: 85% (engine crashed" = .error .attributeError ∧
    ToolError.attributeError ≠
      ToolError.runtimeError (jumbleMsg ("engine crashed".toList)) :=
  ⟨rfl, by simp⟩

/-- Claim C4 (amended): when the start-marker search fails and the
error-pattern search succeeds with captured reason `g`, the parser
fails with `RuntimeError` (the spec's `ExecutionFailedError`) whose
message carries `g` verbatim plus the hint naming the verbose launcher
script `jumble_verbose.sh`; and the error pattern matches exactly the
single-digit percentages, capturing the maximal run of word characters
and spaces after `Score: <digit>% (`. -/
theorem c4_jumble_error_path :
    (∀ (text : String) (g : List Char),
      searchStartEnd text.toList = none →
      searchError text.toList = some g →
      jumbleScore text = .error (.runtimeError (jumbleMsg g))) ∧
    (∀ (d : Char) (w t : List Char), d.isDigit = true → w ≠ [] →
      (∀ c ∈ w, (isWordChar c || c = ' ') = true) →
      matchErrorAt ("Score: ".toList ++ d :: '%' :: ' ' :: '(' :: (w ++ '\n' :: t)) =
        some w) := by
  constructor
  · intro text g hs he
    simp only [jumbleScore, hs, he]
  · intro d w t hd hw hall
    have e1 : stripLit ("Score: ".toList)
        ("Score: ".toList ++ d :: '%' :: ' ' :: '(' :: (w ++ '\n' :: t)) =
        some (d :: '%' :: ' ' :: '(' :: (w ++ '\n' :: t)) := stripLit_self _ _
    have e2 : stripLit ("% (".toList) ('%' :: ' ' :: '(' :: (w ++ '\n' :: t)) =
        some (w ++ '\n' :: t) := stripLit_self ("% (".toList) (w ++ '\n' :: t)
    have hnl : (isWordChar '\n' || decide ('\n' = ' ')) = false := by decide
    have e3 : (w ++ '\n' :: t).takeWhile (fun c => isWordChar c || decide (c = ' ')) =
        w := by
      rw [List.takeWhile_append_of_pos hall, List.takeWhile_cons, hnl]
      simp
    have hwe : w.isEmpty = false := by
      cases w with
      | nil => exact absurd rfl hw
      | cons a as => rfl
    unfold matchErrorAt
    rw [e1]
    show (some (d :: '%' :: ' ' :: '(' :: (w ++ '\n' :: t))).bind _ = some w
    rw [Option.some_bind]
    show (if d.isDigit = true then some ('%' :: ' ' :: '(' :: (w ++ '\n' :: t))
        else none).bind
      (fun r => (stripLit ("% (".toList) r).bind fun r =>
        let g := r.takeWhile (fun c => isWordChar c || decide (c = ' '))
        if g.isEmpty = true then none else some g) = some w
    rw [if_pos hd, Option.some_bind, e2, Option.some_bind]
    show (if ((w ++ '\n' :: t).takeWhile
          (fun c => isWordChar c || decide (c = ' '))).isEmpty = true then none
        else some ((w ++ '\n' :: t).takeWhile
          (fun c => isWordChar c || decide (c = ' ')))) = some w
    rw [e3, hwe]
    simp

/-- Witness for the amended C4 at the spec's example: no start marker,
`Score: 0% (engine crashed` present, reason "engine crashed" captured
and carried in the `RuntimeError` message. -/
theorem c4_jumble_error_path_witness :
    (searchStartEnd ("Score: 0% (engine crashed".toList) = none) ∧
    (searchError ("Score: 0% (engine crashed".toList) =
      some ("engine crashed".toList)) ∧
    jumbleScore "Score: 0% (engine crashed" =
      .error (.runtimeError (jumbleMsg ("engine crashed".toList))) ∧
    ('0'.isDigit = true) ∧ ("engine crashed".toList ≠ []) ∧
    (∀ c ∈ "engine crashed".toList, (isWordChar c || c = ' ') = true) ∧
    matchErrorAt ("Score: ".toList ++ '0' :: '%' :: ' ' :: '(' ::
        ("engine crashed".toList ++ '\n' :: [])) =
      some ("engine crashed".toList) := by
  refine ⟨rfl, rfl, ?_, by decide, by decide, by decide, ?_⟩
  · exact c4_jumble_error_path.1 "Score: 0% (engine crashed" _ rfl rfl
  · exact c4_jumble_error_path.2 '0' ("engine crashed".toList) [] (by decide)
      (by decide) (by decide)

/-! ## Claims C5 and C10 -/

/-- Counterexample to claim C5 as stated: with a duplicated mutant id in
the kill-status table, the pandas left join duplicates the description
row, so `all` is the number of joined rows (2), not the number of
description rows (1). -/
theorem c5_counterexample :
    exceptCounts (majorScore [1] [(1, "KILLED"), (1, "KILLED")]) =
      some (2, 0, 2) ∧
    (2 : ℤ) ≠ (([1] : List Int).length : ℤ) :=
  ⟨rfl, by decide⟩

/-- Claim C5 (amended): the empty kill-status table yields killed = 0,
live = all = number of described mutants and score 0; a non-empty
kill-status table whose mutant ids are pairwise distinct (as in every
real report) yields, for a non-empty description table, all = the
number of description rows, live = the number of described mutants
whose joined status is exactly "LIVE", and killed = all - live. -/
theorem c5_major_join_counts :
    (∀ mutants : List Int, majorScore mutants [] = .ok
      { killed := 0, live := (mutants.length : ℤ), all := (mutants.length : ℤ)
        score := 0, score_full := 0 }) ∧
    (∀ (mutants : List Int) (kill : List (Int × String)) (r : Report),
      kill ≠ [] → (kill.map Prod.fst).Nodup →
      majorScore mutants kill = .ok r →
      r.all = (mutants.length : ℤ) ∧
      r.live = (mutants.countP
        (fun i => decide (killStatusOf kill i = some "LIVE")) : ℤ) ∧
      r.killed = r.all - r.live) := by
  constructor
  · intro mutants
    rfl
  · intro mutants kill r hk hnd h
    rcases majorScore_ok_inv h with ⟨hke, -⟩ | ⟨-, lv, al, hle, hal, hlv, hall, rfl⟩
    · exact absurd hke hk
    · have hmap := majorStatuses_map mutants kill hnd
      refine ⟨?_, ?_, ?_⟩
      · show ((al : ℕ) : ℤ) = (mutants.length : ℤ)
        rw [hall, hmap, List.length_map]
      · show ((lv : ℕ) : ℤ) = _
        rw [hlv, hmap, List.countP_map]
        rfl
      · show ((al - lv : ℕ) : ℤ) = ((al : ℕ) : ℤ) - ((lv : ℕ) : ℤ)
        omega

/-- Witness for the amended C5 at the spec's examples: 2 LIVE and 3
non-LIVE kill rows over 5 described mutants give killed 3 / live 2 /
all 5; an empty kill table over 4 described mutants gives 0 / 4 / 4
with score 0. -/
theorem c5_major_join_counts_witness :
    (majorScore [1, 2, 3, 4] [] = .ok
      { killed := 0, live := 4, all := 4, score := 0, score_full := 0 }) ∧
    ([((1 : ℤ), "LIVE"), (2, "LIVE"), (3, "KILLED"), (4, "KILLED"), (5, "TIMEOUT")] ≠
      ([] : List (Int × String))) ∧
    (([((1 : ℤ), "LIVE"), (2, "LIVE"), (3, "KILLED"), (4, "KILLED"),
        (5, "TIMEOUT")].map Prod.fst).Nodup) ∧
    (majorScore [1, 2, 3, 4, 5]
        [(1, "LIVE"), (2, "LIVE"), (3, "KILLED"), (4, "KILLED"), (5, "TIMEOUT")] =
      .ok { killed := 3, live := 2, all := 5
            score := round3 (((3 : ℕ) : ℚ) / ((5 : ℕ) : ℚ))
            score_full := ((3 : ℕ) : ℚ) / ((5 : ℕ) : ℚ) }) ∧
    ((5 : ℤ) = (([1, 2, 3, 4, 5] : List Int).length : ℤ)) ∧
    ((2 : ℤ) = (([1, 2, 3, 4, 5] : List Int).countP
      (fun i => decide (killStatusOf [(1, "LIVE"), (2, "LIVE"), (3, "KILLED"),
        (4, "KILLED"), (5, "TIMEOUT")] i = some "LIVE")) : ℤ)) ∧
    ((3 : ℤ) = (5 : ℤ) - 2) := by
  have happ := c5_major_join_counts.2 [1, 2, 3, 4, 5]
    [(1, "LIVE"), (2, "LIVE"), (3, "KILLED"), (4, "KILLED"), (5, "TIMEOUT")]
    { killed := 3, live := 2, all := 5
      score := round3 (((3 : ℕ) : ℚ) / ((5 : ℕ) : ℚ))
      score_full := ((3 : ℕ) : ℚ) / ((5 : ℕ) : ℚ) }
    (by simp) (by decide) rfl
  exact ⟨c5_major_join_counts.1 [1, 2, 3, 4], by simp, by decide, rfl,
    happ.1, happ.2.1, happ.2.2⟩

/-- Claim C10: with a non-empty kill-status table, a described mutant
whose id has no kill-status row joins with a missing status (`none`),
is not counted live, and — killed being all minus live — inflates the
killed count and the recomputed score: appending such a mutant to the
description table increments killed and all by one and leaves live
unchanged, still returning a record. -/
theorem c10_unmatched_counted_killed (mutants : List Int)
    (kill : List (Int × String)) (i : Int) (r : Report)
    (hk : kill ≠ []) (hi : i ∉ kill.map Prod.fst)
    (h : majorScore mutants kill = .ok r) :
    majorStatuses [i] kill = [none] ∧
    majorScore (mutants ++ [i]) kill = .ok
      { killed := r.killed + 1, live := r.live, all := r.all + 1
        score := round3 (((r.killed + 1 : ℤ) : ℚ) / ((r.all + 1 : ℤ) : ℚ))
        score_full := ((r.killed + 1 : ℤ) : ℚ) / ((r.all + 1 : ℤ) : ℚ) } := by
  have hfil : kill.filter (fun p => decide (p.1 = i)) = [] := by
    apply List.filter_eq_nil_iff.mpr
    intro p hp
    simp only [decide_eq_true_eq]
    intro hpi
    exact hi (by
      rw [← hpi]
      exact List.mem_map_of_mem Prod.fst hp)
  have hsi : majorStatuses [i] kill = [none] := by
    simp [majorStatuses, hfil]
  refine ⟨hsi, ?_⟩
  rcases majorScore_ok_inv h with ⟨hke, -⟩ | ⟨-, lv, al, hle, hal, hlv, hall, rfl⟩
  · exact absurd hke hk
  · cases kill with
    | nil => exact absurd rfl hk
    | cons k0 ks =>
      have hlen : (majorStatuses (mutants ++ [i]) (k0 :: ks)).length = al + 1 := by
        rw [majorStatuses_append, List.length_append, hsi, hall]
        rfl
      have hcnt : (majorStatuses (mutants ++ [i]) (k0 :: ks)).countP
          (fun s => decide (s = some "LIVE")) = lv := by
        rw [majorStatuses_append, List.countP_append, hsi, hlv]
        rfl
      simp only [majorScore, hlen, hcnt]
      rw [if_neg (by omega : ¬al + 1 = 0)]
      refine congrArg Except.ok ?_
      have h1 : al + 1 - lv = (al - lv) + 1 := by omega
      rw [h1]
      have hk2 : (((al - lv) + 1 : ℕ) : ℤ) = ((al - lv : ℕ) : ℤ) + 1 := by
        push_cast
        ring
      have ha2 : ((al + 1 : ℕ) : ℤ) = ((al : ℕ) : ℤ) + 1 := by
        push_cast
        ring
      have hkq : (((al - lv) + 1 : ℕ) : ℚ) =
          ((((al - lv : ℕ) : ℤ) + 1 : ℤ) : ℚ) := by
        push_cast
        ring
      have haq : ((al + 1 : ℕ) : ℚ) = ((((al : ℕ) : ℤ) + 1 : ℤ) : ℚ) := by
        push_cast
        ring
      show Report.mk _ _ _ _ _ = Report.mk _ _ _ _ _
      rw [Report.mk.injEq]
      exact ⟨hk2, rfl, ha2, by rw [hkq, haq], by rw [hkq, haq]⟩

/-- Witness for C10: mutant 7 is described but absent from the kill
table; it joins as `none` and moves killed from 1 to 2, live staying
1. -/
theorem c10_unmatched_counted_killed_witness :
    ([((1 : ℤ), "LIVE")] ≠ ([] : List (Int × String))) ∧
    ((7 : ℤ) ∉ ([((1 : ℤ), "LIVE")] : List (Int × String)).map Prod.fst) ∧
    (majorScore [1, 2] [(1, "LIVE")] = .ok
      { killed := 1, live := 1, all := 2
        score := round3 (((1 : ℕ) : ℚ) / ((2 : ℕ) : ℚ))
        score_full := ((1 : ℕ) : ℚ) / ((2 : ℕ) : ℚ) }) ∧
    majorStatuses [7] [(1, "LIVE")] = [none] ∧
    majorScore ([1, 2] ++ [7]) [(1, "LIVE")] = .ok
      { killed := (1 : ℤ) + 1, live := 1, all := (2 : ℤ) + 1
        score := round3 ((((1 : ℤ) + 1 : ℤ) : ℚ) / (((2 : ℤ) + 1 : ℤ) : ℚ))
        score_full := (((1 : ℤ) + 1 : ℤ) : ℚ) / (((2 : ℤ) + 1 : ℤ) : ℚ) } := by
  have happ := c10_unmatched_counted_killed [1, 2] [(1, "LIVE")] 7
    { killed := 1, live := 1, all := 2
      score := round3 (((1 : ℕ) : ℚ) / ((2 : ℕ) : ℚ))
      score_full := ((1 : ℕ) : ℚ) / ((2 : ℕ) : ℚ) }
    (by simp) (by decide) rfl
  exact ⟨by simp, by decide, rfl, happ.1, happ.2⟩

/-! ## Claims C6, C7 and C8 -/

/-- Counterexample to claim C6 as stated: a single matching entry whose
`mutantsCount` is 0 makes the parser raise `ZeroDivisionError` on
`killed / all` instead of returning the record. -/
theorem c6_counterexample :
    judyScore "a.B" [⟨"a.B", 0, 0⟩] = .error .zeroDivision ∧
    exceptIsOk (judyScore "a.B" [⟨"a.B", 0, 0⟩]) = false :=
  ⟨rfl, rfl⟩

/-- Claim C6 (amended): the Judy parser fails with `AssertionError`
(the spec's `AmbiguousTargetError`) when zero or more than one class
entries match the target class; when exactly one matches and its
`mutantsCount` is non-zero it returns all = mutantsCount,
killed = mutantsKilledCount, live = all - killed. -/
theorem c6_judy_target_selection :
    (∀ cls es, es.filter (fun e => decide (e.name = cls)) = [] →
      judyScore cls es =
        .error (.assertionFailed (cls ++ " not found in Judy output!"))) ∧
    (∀ cls es e1 e2 rest,
      es.filter (fun e => decide (e.name = cls)) = e1 :: e2 :: rest →
      judyScore cls es =
        .error (.assertionFailed (cls ++ " appears multiple times in Judy output!"))) ∧
    (∀ cls es e, es.filter (fun e => decide (e.name = cls)) = [e] →
      e.mutantsCount ≠ 0 →
      judyScore cls es = .ok
        { killed := e.mutantsKilledCount
          live := e.mutantsCount - e.mutantsKilledCount
          all := e.mutantsCount
          score := round3 ((e.mutantsKilledCount : ℚ) / (e.mutantsCount : ℚ))
          score_full := (e.mutantsKilledCount : ℚ) / (e.mutantsCount : ℚ) }) := by
  refine ⟨?_, ?_, ?_⟩
  · intro cls es hf
    simp only [judyScore, hf]
  · intro cls es e1 e2 rest hf
    simp only [judyScore, hf]
  · intro cls es e hf hne
    simp only [judyScore, hf]
    rw [if_neg hne]

/-- Witness for the amended C6: zero matches and two matches raise; the
spec's 10/7 example returns killed 7 / live 3 / all 10. -/
theorem c6_judy_target_selection_witness :
    (([⟨"a.B", 10, 7⟩] : List JudyClassEntry).filter
      (fun e => decide (e.name = "x.Y")) = [] ∧
     judyScore "x.Y" [⟨"a.B", 10, 7⟩] =
      .error (.assertionFailed ("x.Y" ++ " not found in Judy output!"))) ∧
    (([⟨"x.Y", 1, 1⟩, ⟨"x.Y", 2, 2⟩] : List JudyClassEntry).filter
      (fun e => decide (e.name = "x.Y")) = [⟨"x.Y", 1, 1⟩, ⟨"x.Y", 2, 2⟩] ∧
     judyScore "x.Y" [⟨"x.Y", 1, 1⟩, ⟨"x.Y", 2, 2⟩] =
      .error (.assertionFailed ("x.Y" ++ " appears multiple times in Judy output!"))) ∧
    (([⟨"a.B", 10, 7⟩] : List JudyClassEntry).filter
      (fun e => decide (e.name = "a.B")) = [⟨"a.B", 10, 7⟩] ∧
     ((10 : ℤ) ≠ 0) ∧
     judyScore "a.B" [⟨"a.B", 10, 7⟩] = .ok
      { killed := 7, live := 10 - 7, all := 10
        score := round3 (((7 : ℤ) : ℚ) / ((10 : ℤ) : ℚ))
        score_full := ((7 : ℤ) : ℚ) / ((10 : ℤ) : ℚ) }) := by
  refine ⟨⟨rfl, ?_⟩, ⟨rfl, ?_⟩, ⟨rfl, by decide, ?_⟩⟩
  · exact c6_judy_target_selection.1 "x.Y" [⟨"a.B", 10, 7⟩] rfl
  · exact c6_judy_target_selection.2.1 "x.Y" [⟨"x.Y", 1, 1⟩, ⟨"x.Y", 2, 2⟩]
      ⟨"x.Y", 1, 1⟩ ⟨"x.Y", 2, 2⟩ [] rfl
  · exact c6_judy_target_selection.2.2 "a.B" [⟨"a.B", 10, 7⟩] ⟨"a.B", 10, 7⟩
      rfl (by decide)

/-- Counterexample to claim C7 as stated: an XML report with no
children (each of its zero children vacuously carries a valid detected
attribute) makes the parser raise `ZeroDivisionError` instead of
returning a record. -/
theorem c7_counterexample :
    pitScore [] = .error .zeroDivision ∧
    exceptIsOk (pitScore []) = false :=
  ⟨rfl, rfl⟩

/-- Both detected counts together exhaust a valid child list. -/
theorem pit_count_sum {ds : List (Option String)}
    (h : ∀ d ∈ ds, d = some "true" ∨ d = some "false") :
    ds.countP (fun d => decide (d = some "true")) +
      ds.countP (fun d => decide (d = some "false")) = ds.length := by
  induction ds with
  | nil => rfl
  | cons d ds ih =>
    have ihr := ih (fun x hx => h x (List.mem_cons_of_mem d hx))
    rcases h d (List.mem_cons_self d ds) with hd | hd <;> subst hd <;>
      simp [List.countP_cons] <;> omega

/-- Claim C7 (amended): for every report whose children each carry
`detected` equal to `"true"` or `"false"`, with at least one child, the
parser returns killed = the number of `"true"` children, live = the
number of `"false"` children, all = killed + live. -/
theorem c7_pit_detected_counts (ds : List (Option String))
    (hvalid : ∀ d ∈ ds, d = some "true" ∨ d = some "false") (hne : ds ≠ []) :
    pitScore ds = .ok
      { killed := (ds.countP (fun d => decide (d = some "true")) : ℤ)
        live := (ds.countP (fun d => decide (d = some "false")) : ℤ)
        all := ((ds.countP (fun d => decide (d = some "true")) +
          ds.countP (fun d => decide (d = some "false")) : ℕ) : ℤ)
        score := round3 ((ds.countP (fun d => decide (d = some "true")) : ℚ) /
          ((ds.countP (fun d => decide (d = some "true")) +
            ds.countP (fun d => decide (d = some "false")) : ℕ) : ℚ))
        score_full := (ds.countP (fun d => decide (d = some "true")) : ℚ) /
          ((ds.countP (fun d => decide (d = some "true")) +
            ds.countP (fun d => decide (d = some "false")) : ℕ) : ℚ) } := by
  have hc := pitCounts_ok hvalid
  have hsum := pit_count_sum hvalid
  have hz : ¬(ds.countP (fun d => decide (d = some "true")) +
      ds.countP (fun d => decide (d = some "false")) = 0) := by
    intro h0
    apply hne
    apply List.eq_nil_of_length_eq_zero
    omega
  simp only [pitScore, hc]
  rw [if_neg hz]

/-- Witness for the amended C7 at the spec's example: six children,
four detected, two not, give killed 4 / live 2 / all 6 and score
round(4/6, 3) = 0.667. -/
theorem c7_pit_detected_counts_witness :
    (∀ d ∈ [some "true", some "true", some "false", some "true", some "true",
      some "false"], d = some "true" ∨ d = some "false") ∧
    ([some "true", some "true", some "false", some "true", some "true",
      some "false"] ≠ ([] : List (Option String))) ∧
    pitScore [some "true", some "true", some "false", some "true", some "true",
      some "false"] = .ok
      { killed := 4, live := 2, all := 6
        score := round3 (((4 : ℕ) : ℚ) / ((6 : ℕ) : ℚ))
        score_full := ((4 : ℕ) : ℚ) / ((6 : ℕ) : ℚ) } ∧
    round3 (((4 : ℕ) : ℚ) / ((6 : ℕ) : ℚ)) = 667 / 1000 := by
  refine ⟨by decide, by decide, ?_, ?_⟩
  · exact c7_pit_detected_counts
      [some "true", some "true", some "false", some "true", some "true",
        some "false"] (by decide) (by decide)
  · have h1 : ((4 : ℕ) : ℚ) / ((6 : ℕ) : ℚ) * 1000 = 2000 / 3 := by
      norm_num
    have h2 : (⌊(2000 : ℚ) / 3⌋ : ℤ) = 666 := by
      rw [Int.floor_eq_iff]
      norm_num
    show (roundHalfEven _ : ℚ) / 1000 = 667 / 1000
    rw [h1]
    unfold roundHalfEven
    rw [h2]
    norm_num

/-- Claim C8: requesting an unregistered tool name raises `ValueError`
(the spec's `UnknownToolError`) whose message enumerates exactly the
four valid names in registry order, and the "all tools" expansion is
the fixed list judy, jumble, major, pit on every invocation. -/
theorem c8_registry :
    (∀ name : String, name ∉ validToolNames →
      get_tool name = .error ("Invalid tool provided: " ++ name ++
        ". Valid tools are ['judy', 'jumble', 'major', 'pit']")) ∧
    get_all_tools = [.ok .judy, .ok .jumble, .ok .major, .ok .pit] := by
  constructor
  · intro name hn
    simp only [validToolNames, List.mem_cons, List.not_mem_nil, or_false,
      not_or] at hn
    obtain ⟨h1, h2, h3, h4⟩ := hn
    unfold get_tool
    rw [if_neg h1, if_neg h2, if_neg h3, if_neg h4]
  · rfl

/-- Witness for C8: the unknown name "cobertura" is rejected with the
message enumerating the four valid names. -/
theorem c8_registry_witness :
    ("cobertura" ∉ validToolNames) ∧
    get_tool "cobertura" = .error ("Invalid tool provided: " ++ "cobertura" ++
      ". Valid tools are ['judy', 'jumble', 'major', 'pit']") :=
  ⟨by decide, c8_registry.1 "cobertura" (by decide)⟩

/-! ## Claim C9 -/

/-- Counterexample to claim C9 as stated: `read_config` strips the
surrounding whitespace of the line, the key and the value, so on the
line `" a = b "` it produces the pair `("a", "b")`, not the literal
split `(" a ", " b ")` the claim describes; the resulting maps answer
differently at the key `"a"`. -/
theorem c9_counterexample :
    read_config [" a = b "] = [("a", "b")] ∧
    readConfigClaim [" a = b "] = [(" a ", " b ")] ∧
    ([(" a ", " b ")] : List (String × String)) ≠ [("a", "b")] ∧
    List.lookup "a" [(" a ", " b ")] = none ∧
    List.lookup "a" [("a", "b")] = some "b" :=
  ⟨rfl, rfl, by decide, rfl, rfl⟩

/-- One `read_config` loop iteration agrees with the per-line contract
of the amended claim. -/
theorem readConfigLine_eq (acc : List (String × String)) (line : String) :
    readConfigLine acc line =
      match parseLineAmended line with
      | none => acc
      | some kv => dictInsert acc kv.1 kv.2 := by
  unfold readConfigLine parseLineAmended
  by_cases h1 : stripStr line = ""
  · simp [h1]
  · simp only [if_neg h1]
    by_cases h2 : (stripStr line).data.head? = some '#'
    · simp [h2]
    · simp only [String.toList, if_neg h2]
      cases h3 : splitFirstEq (stripStr line).data with
      | none => simp [h3]
      | some kv => simp [h3]

/-- Claim C9 (amended): the reader processes each line by stripping its
surrounding whitespace, skipping it when the stripped form is blank,
starts with `'#'` or holds no `'='`, and otherwise splitting the
stripped form on the first `'='` and stripping key and value; the
result is the dict of the surviving pairs inserted in order, a later
binding overwriting an earlier one with the same key in place. -/
theorem c9_read_config_amended (lines : List String) :
    read_config lines = (lines.filterMap parseLineAmended).foldl
      (fun acc kv => dictInsert acc kv.1 kv.2) [] := by
  suffices h : ∀ acc, lines.foldl readConfigLine acc =
      (lines.filterMap parseLineAmended).foldl
        (fun acc kv => dictInsert acc kv.1 kv.2) acc from h []
  induction lines with
  | nil =>
    intro acc
    rfl
  | cons line rest ih =>
    intro acc
    rw [List.foldl_cons, List.filterMap_cons, readConfigLine_eq]
    cases hp : parseLineAmended line with
    | none => exact ih acc
    | some kv =>
      rw [List.foldl_cons]
      exact ih (dictInsert acc kv.1 kv.2)
